import Mathlib

/-!
Shallow embedding of the synce-datatable repository's data-shaping logic:
`src/config/columns.js` (dynamic column inference) and `src/DataTablePage.jsx`
(filtering, column-visibility state, CSV export).  JavaScript values are
modelled by `JSValue` (numbers as integers, which covers the data this app
handles), records as association lists in key-insertion order, and code that
can throw returns `Option`.
-/

namespace SynceDT

/-- Model of a JavaScript runtime value as it appears in the record data. -/
inductive JSValue where
  | vNull
  | vUndefined
  | vNum (n : Int)
  | vBool (b : Bool)
  | vStr (s : String)
deriving DecidableEq

/-- A record (one row): a flat field-name-to-value mapping in key order. -/
abbrev Record := List (String × JSValue)

/-- JavaScript property access `item[fieldName]`: `undefined` when absent. -/
def rowGet (item : Record) (fieldName : String) : JSValue :=
  match item.find? (fun p => p.1 == fieldName) with
  | some p => p.2
  | none => JSValue.vUndefined

/-- The sample filter in `analyzeFieldType`: `val !== null && val !== undefined`. -/
def notNullish : JSValue → Bool
  | JSValue.vNull => false
  | JSValue.vUndefined => false
  | _ => true

/-- JavaScript `value.toString()`: throws (`none`) on `null` and `undefined`. -/
def jsToString : JSValue → Option String
  | JSValue.vNull => none
  | JSValue.vUndefined => none
  | JSValue.vNum n => some (toString n)
  | JSValue.vBool b => some (if b then "true" else "false")
  | JSValue.vStr s => some s

/-- The coercion `Array.prototype.join` applies to an element:
`null` and `undefined` become the empty string. -/
def joinElemString : JSValue → String
  | JSValue.vNull => ""
  | JSValue.vUndefined => ""
  | JSValue.vNum n => toString n
  | JSValue.vBool b => if b then "true" else "false"
  | JSValue.vStr s => s

/-- Does the first character list start with the second one? -/
def charsStartWith : List Char → List Char → Bool
  | _, [] => true
  | [], _ :: _ => false
  | c :: cs, p :: ps => c == p && charsStartWith cs ps

/-- Does the first character list contain the second as a contiguous run? -/
def charsContain : List Char → List Char → Bool
  | [], pat => pat.isEmpty
  | c :: cs, pat => charsStartWith (c :: cs) pat || charsContain cs pat

/-- JavaScript `String.prototype.includes`. -/
def strIncludes (s pat : String) : Bool :=
  charsContain s.toList pat.toList

/-- Insert a thousands separator before every fourth, seventh, ... digit of a
reversed digit list (helper for `toLocaleString`). -/
def groupRev : List Char → Nat → List Char
  | [], _ => []
  | c :: cs, k =>
    if k > 1 && k % 3 == 1 then ',' :: c :: groupRev cs (k + 1)
    else c :: groupRev cs (k + 1)

/-- `Number.prototype.toLocaleString()` in the default en-US locale, for
integral values: decimal digits with `,` grouping separators. -/
def toLocaleString (n : Int) : String :=
  let body := String.mk (groupRev (toString n.natAbs).toList.reverse 1).reverse
  if n < 0 then "-" ++ body else body

/-- How React renders a JSX expression child that is not itself an element:
strings and numbers as their text, the rest as nothing. -/
def jsxText : JSValue → String
  | JSValue.vStr s => s
  | JSValue.vNum n => toString n
  | _ => ""

/-- Text content produced by the `number` cell renderer in `getFieldConfig`:
`typeof value === 'number' ? value.toLocaleString() : value`. -/
def numberCellText : JSValue → String
  | JSValue.vNum n => toLocaleString n
  | v => jsxText v

/-- The date regex of `isDateString`: four digits, a dash, two digits,
a dash, two digits, anchored at both ends. -/
def matchesDatePattern (str : String) : Bool :=
  match str.toList with
  | [y1, y2, y3, y4, h1, m1, m2, h2, d1, d2] =>
    y1.isDigit && y2.isDigit && y3.isDigit && y4.isDigit &&
    h1 == '-' && m1.isDigit && m2.isDigit && h2 == '-' && d1.isDigit && d2.isDigit
  | _ => false

def digitVal (c : Char) : Nat := c.toNat - 48

def isLeapYear (y : Nat) : Bool :=
  (y % 4 == 0 && y % 100 != 0) || y % 400 == 0

def daysInMonth (y m : Nat) : Nat :=
  if m == 2 then (if isLeapYear y then 29 else 28)
  else if m == 4 || m == 6 || m == 9 || m == 11 then 30
  else 31

/-- For a string already matching the date pattern, whether `Date.parse`
accepts it: ECMAScript range-checks ISO date-only strings as calendar dates
and yields NaN on out-of-range months or days. -/
def dateParseValid (str : String) : Bool :=
  match str.toList with
  | [y1, y2, y3, y4, _, m1, m2, _, d1, d2] =>
    let y := digitVal y1 * 1000 + digitVal y2 * 100 + digitVal y3 * 10 + digitVal y4
    let m := digitVal m1 * 10 + digitVal m2
    let d := digitVal d1 * 10 + digitVal d2
    decide (1 ≤ m) && decide (m ≤ 12) && decide (1 ≤ d) && decide (d ≤ daysInMonth y m)
  | _ => false

/-- `isDateString` from `columns.js`: the pattern test plus
`!isNaN(Date.parse(str))`. -/
def isDateString (str : String) : Bool :=
  matchesDatePattern str && dateParseValid str

/-- The list `data.map(item => item[fieldName])`. -/
def fieldValues (data : List Record) (fieldName : String) : List JSValue :=
  data.map (fun item => rowGet item fieldName)

/-- `analyzeFieldType`'s sample collection: the first five non-null,
non-undefined values of the field across records, in record order. -/
def sampleValues (data : List Record) (fieldName : String) : List JSValue :=
  ((fieldValues data fieldName).filter notNullish).take 5

/-- The first non-null, non-undefined value of a field across records
(claim-side vocabulary: the value that actually decides the inferred type). -/
def firstSample (data : List Record) (fieldName : String) : Option JSValue :=
  (fieldValues data fieldName).find? notNullish

inductive FieldType where
  | id
  | text
  | date
  | number
  | boolean
deriving DecidableEq

/-- `analyzeFieldType` from `columns.js`: zero-sample check first, then the
`id` field-name check, then `typeof`-based checks on the first sample. -/
def analyzeFieldType (fieldName : String) (data : List Record) : FieldType :=
  match sampleValues data fieldName with
  | [] => FieldType.text
  | firstValue :: _ =>
    if fieldName = "id" then FieldType.id
    else
      match firstValue with
      | JSValue.vNum _ => FieldType.number
      | JSValue.vBool _ => FieldType.boolean
      | JSValue.vStr s => if isDateString s then FieldType.date else FieldType.text
      | _ => FieldType.text

/-- First replacement step of `formatDisplayName`: a space before each
capital letter. -/
def insertSpaces : List Char → List Char
  | [] => []
  | c :: cs => if c.isUpper then ' ' :: c :: insertSpaces cs else c :: insertSpaces cs

/-- Third replacement step of `formatDisplayName`: uppercase every word
character that follows a non-word character (JavaScript word characters:
letters, digits, underscore). -/
def capWords : Bool → List Char → List Char
  | _, [] => []
  | prevWord, c :: cs =>
    let isWord := c.isAlphanum || c == '_'
    (if isWord && !prevWord then c.toUpper else c) :: capWords isWord cs

/-- `formatDisplayName` from `columns.js`. -/
def formatDisplayName (fieldName : String) : String :=
  let step1 := insertSpaces fieldName.toList
  let step2 :=
    match step1 with
    | [] => []
    | c :: cs => c.toUpper :: cs
  (String.mk (capWords false step2)).trim

/-- Which cell renderer a field configuration installs (`plain` = none). -/
inductive Renderer where
  | plain
  | date
  | number
  | boolean
deriving DecidableEq

structure FieldConfig where
  displayName : String
  sortable : Bool
  width : String
  «omit» : Bool
  renderer : Renderer
deriving DecidableEq

/-- `getFieldConfig` from `columns.js` (renderers abstracted to tags; the
`number` renderer's text content is `numberCellText`). -/
def getFieldConfig (fieldName : String) (fieldType : FieldType) : FieldConfig :=
  match fieldType with
  | FieldType.id =>
    { displayName := "ID", sortable := true, width := "80px",
      «omit» := true, renderer := Renderer.plain }
  | FieldType.text =>
    { displayName := formatDisplayName fieldName, sortable := true, width := "150px",
      «omit» := false, renderer := Renderer.plain }
  | FieldType.date =>
    { displayName := formatDisplayName fieldName, sortable := true, width := "130px",
      «omit» := false, renderer := Renderer.date }
  | FieldType.number =>
    { displayName := formatDisplayName fieldName, sortable := true, width := "120px",
      «omit» := false, renderer := Renderer.number }
  | FieldType.boolean =>
    { displayName := formatDisplayName fieldName, sortable := true, width := "100px",
      «omit» := false, renderer := Renderer.boolean }

structure Column where
  id : String
  name : String
  sortable : Bool
  width : String
  «omit» : Bool
  renderer : Renderer
deriving DecidableEq

/-- `createColumnConfig` from `columns.js` (the `selector` and `cell`
closures are determined by `id` and `renderer`). -/
def createColumnConfig (fieldName : String) (data : List Record) : Column :=
  let fieldType := analyzeFieldType fieldName data
  let config := getFieldConfig fieldName fieldType
  { id := fieldName, name := config.displayName, sortable := config.sortable,
    width := config.width, «omit» := config.«omit», renderer := config.renderer }

/-- The hard-coded preferred field ordering in `generateDynamicColumns`. -/
def fieldOrder : List String :=
  ["id", "name", "email", "role", "department", "joiningDate", "salary", "phone", "status"]

def jsIndexOfAux (a : String) : List String → Int → Int
  | [], _ => -1
  | x :: xs, i => if x == a then i else jsIndexOfAux a xs (i + 1)

/-- `Array.prototype.indexOf`: position of the element, or -1 when absent. -/
def jsIndexOf (l : List String) (a : String) : Int :=
  jsIndexOfAux a l 0

/-- Three-way codepoint comparison of character lists. -/
def cmpChars : List Char → List Char → Int
  | [], [] => 0
  | [], _ :: _ => -1
  | _ :: _, [] => 1
  | a :: as, b :: bs =>
    if a.toNat < b.toNat then -1
    else if b.toNat < a.toNat then 1
    else cmpChars as bs

/-- Model of `String.prototype.localeCompare`: for the plain ASCII field
names this code sorts, the default collation agrees with codepoint order. -/
def localeCompare (a b : String) : Int :=
  cmpChars a.toList b.toList

/-- The comparator passed to `sort` in `generateDynamicColumns`
(`aIndex` and `bIndex` written out). -/
def compareKeys (a b : String) : Int :=
  if jsIndexOf fieldOrder a ≠ -1 ∧ jsIndexOf fieldOrder b ≠ -1 then
    jsIndexOf fieldOrder a - jsIndexOf fieldOrder b
  else if jsIndexOf fieldOrder a ≠ -1 then -1
  else if jsIndexOf fieldOrder b ≠ -1 then 1
  else localeCompare a b

/-- Stable insertion step for the comparator sort. -/
def insertKey (x : String) : List String → List String
  | [] => [x]
  | y :: ys => if compareKeys y x ≤ 0 then y :: insertKey x ys else x :: y :: ys

/-- `Array.prototype.sort` with `compareKeys` (stable, as ECMAScript
requires; realised as stable insertion from the left). -/
def sortKeys (l : List String) : List String :=
  l.foldl (fun acc x => insertKey x acc) []

/-- `Set.prototype.add`: append if not already present. -/
def addKey (acc : List String) (k : String) : List String :=
  if k ∈ acc then acc else acc ++ [k]

/-- The `allKeys` set built by `generateDynamicColumns`: every key of every
record, in first-seen order. -/
def allKeysFirstSeen (data : List Record) : List String :=
  data.foldl (fun acc item => (item.map Prod.fst).foldl addKey acc) []

/-- `generateDynamicColumns` from `columns.js`. -/
def generateDynamicColumns (data : List Record) : List Column :=
  if data.isEmpty then []
  else (sortKeys (allKeysFirstSeen data)).map (fun key => createColumnConfig key data)

/-- `generateDefaultVisibleColumns` from `columns.js`: the first at most 8
non-`id` keys of the first record. -/
def generateDefaultVisibleColumns (data : List Record) : List String :=
  match data with
  | [] => []
  | first :: _ => ((first.map Prod.fst).filter (fun field => field != "id")).take 8

/-- Concatenation of every record's keys (the "union of all keys" the spec
speaks about, used only through membership). -/
def unionKeys (data : List Record) : List String :=
  data.foldr (fun item acc => item.map Prod.fst ++ acc) []

/-- One pass of `Array.prototype.some(value => value.toString()...)` in
`filteredData`; `none` models the `TypeError` thrown by `value.toString()`
on `null` or `undefined` (`some` stops at the first match). -/
def someValueMatches : List JSValue → String → Option Bool
  | [], _ => some false
  | v :: rest, filterText =>
    match jsToString v with
    | none => none
    | some s =>
      if strIncludes s.toLower filterText.toLower then some true
      else someValueMatches rest filterText

/-- `data.filter(item => Object.values(item).some(...))`. -/
def filterRows : List Record → String → Option (List Record)
  | [], _ => some []
  | item :: rest, filterText =>
    match someValueMatches (item.map Prod.snd) filterText with
    | none => none
    | some b =>
      match filterRows rest filterText with
      | none => none
      | some l => some (if b then item :: l else l)

/-- `filteredData` from `DataTablePage.jsx` (for a string, `!filterText` is
true exactly when it is empty). -/
def filteredData (data : List Record) (filterText : String) : Option (List Record) :=
  if filterText = "" then some data
  else filterRows data filterText

/-- The state update of `handleColumnToggle` in `DataTablePage.jsx`. -/
def handleColumnToggle (prev : List String) (columnId : String) : List String :=
  if columnId ∈ prev then
    if prev.length = 1 then prev
    else prev.filter (fun i => i != columnId)
  else prev ++ [columnId]

/-- The `useEffect` reaction to a dataset change in `DataTablePage.jsx`
(`JSON.stringify` equality of string arrays coincides with list equality). -/
def updateVisibleColumns (data : List Record) (visibleColumns : List String) : List String :=
  let newDefaults := generateDefaultVisibleColumns data
  if 0 < newDefaults.length ∧ newDefaults ≠ visibleColumns then
    let newColumns := newDefaults.filter (fun col => decide (col ∉ visibleColumns))
    if 0 < newColumns.length then visibleColumns ++ newColumns
    else visibleColumns
  else visibleColumns

/-- One CSV cell of `exportToCSV` (after the join's string coercion): a
string containing a comma is replaced by the template literal, which has no
substitution marker and therefore stays literal text. -/
def csvCell (value : JSValue) : String :=
  match value with
  | JSValue.vStr s =>
    if strIncludes s "," then "\"\x7bvalue\x7d\"" else s
  | v => joinElemString v

/-- `exportToCSV` from `DataTablePage.jsx`: the text of the produced blob. -/
def exportToCSV (visibleTableColumns : List Column) (rows : List Record) : String :=
  let csvHeaders := ",".intercalate (visibleTableColumns.map (fun col => col.name))
  let csvRows := rows.map (fun row =>
    ",".intercalate (visibleTableColumns.map (fun col => csvCell (rowGet row col.id))))
  "\n".intercalate (csvHeaders :: csvRows)

/-! ## Helper lemmas -/

theorem find?_eq_filter_head (p : JSValue → Bool) (l : List JSValue) :
    l.find? p = (l.filter p).head? := by
  induction l with
  | nil => rfl
  | cons v vs ih =>
    by_cases h : p v
    · rw [List.find?_cons_of_pos _ h, List.filter_cons_of_pos h, List.head?_cons]
    · rw [List.find?_cons_of_neg _ h, List.filter_cons_of_neg h, ih]

theorem head?_take5 (l : List JSValue) : (l.take 5).head? = l.head? := by
  cases l <;> rfl

theorem firstSample_eq_head (data : List Record) (fieldName : String) :
    firstSample data fieldName = (sampleValues data fieldName).head? := by
  unfold firstSample sampleValues
  rw [find?_eq_filter_head]
  exact (head?_take5 _).symm

theorem cmpChars_neg : ∀ (a b : List Char), cmpChars b a = -cmpChars a b
  | [], [] => by simp [cmpChars]
  | [], _ :: _ => by simp [cmpChars]
  | _ :: _, [] => by simp [cmpChars]
  | x :: xs, y :: ys => by
    by_cases h1 : x.toNat < y.toNat
    · have h2 : ¬ y.toNat < x.toNat := by omega
      simp [cmpChars, h1, h2]
    · by_cases h2 : y.toNat < x.toNat
      · simp [cmpChars, h1, h2]
      · simp [cmpChars, h1, h2, cmpChars_neg xs ys]

theorem cmpChars_trans : ∀ (a b c : List Char),
    cmpChars a b ≤ 0 → cmpChars b c ≤ 0 → cmpChars a c ≤ 0
  | [], b, c, _, _ => by cases c <;> simp [cmpChars]
  | _ :: _, [], _, h1, _ => by simp [cmpChars] at h1
  | _ :: _, _ :: _, [], _, h2 => by simp [cmpChars] at h2
  | x :: xs, y :: ys, z :: zs, h1, h2 => by
    simp only [cmpChars] at h1 h2 ⊢
    by_cases hxy : x.toNat < y.toNat
    · by_cases hyz : y.toNat < z.toNat
      · have hxz : x.toNat < z.toNat := by omega
        rw [if_pos hxz]
        omega
      · by_cases hzy : z.toNat < y.toNat
        · rw [if_neg hyz, if_pos hzy] at h2
          omega
        · have hxz : x.toNat < z.toNat := by omega
          rw [if_pos hxz]
          omega
    · by_cases hyx : y.toNat < x.toNat
      · rw [if_neg hxy, if_pos hyx] at h1
        omega
      · by_cases hyz : y.toNat < z.toNat
        · have hxz : x.toNat < z.toNat := by omega
          rw [if_pos hxz]
          omega
        · by_cases hzy : z.toNat < y.toNat
          · rw [if_neg hyz, if_pos hzy] at h2
            omega
          · have hnxz : ¬ x.toNat < z.toNat := by omega
            have hnzx : ¬ z.toNat < x.toNat := by omega
            rw [if_neg hxy, if_neg hyx] at h1
            rw [if_neg hyz, if_neg hzy] at h2
            rw [if_neg hnxz, if_neg hnzx]
            exact cmpChars_trans xs ys zs h1 h2

theorem compareKeys_trans (a b c : String)
    (h1 : compareKeys a b ≤ 0) (h2 : compareKeys b c ≤ 0) :
    compareKeys a c ≤ 0 := by
  unfold compareKeys at h1 h2 ⊢
  split_ifs at h1 h2 ⊢ <;>
    first
      | omega
      | (exact cmpChars_trans _ _ _ h1 h2)

theorem localeCompare_neg (a b : String) : localeCompare b a = -localeCompare a b :=
  cmpChars_neg a.toList b.toList

theorem compareKeys_total (a b : String) (h : ¬ compareKeys a b ≤ 0) :
    compareKeys b a ≤ 0 := by
  unfold compareKeys at h ⊢
  split_ifs at h ⊢ <;>
    first
      | omega
      | (rw [localeCompare_neg a b]
         omega)

theorem insertKey_mem (x : String) (l : List String) (a : String) :
    a ∈ insertKey x l ↔ a = x ∨ a ∈ l := by
  induction l with
  | nil => simp [insertKey]
  | cons y ys ih =>
    by_cases h : compareKeys y x ≤ 0
    · simp only [insertKey, if_pos h, List.mem_cons, ih]
      tauto
    · simp only [insertKey, if_neg h, List.mem_cons]

theorem insertKey_nodup (x : String) (l : List String)
    (h : l.Nodup) (hx : x ∉ l) : (insertKey x l).Nodup := by
  induction l with
  | nil => simp [insertKey]
  | cons y ys ih =>
    obtain ⟨hy, hys⟩ := List.nodup_cons.mp h
    have hxy : x ≠ y := fun he => hx (he ▸ List.mem_cons_self y ys)
    have hxys : x ∉ ys := fun hm => hx (List.mem_cons_of_mem _ hm)
    by_cases hc : compareKeys y x ≤ 0
    · simp only [insertKey, if_pos hc]
      refine List.nodup_cons.mpr ⟨?_, ih hys hxys⟩
      intro hmem
      rcases (insertKey_mem x ys y).mp hmem with he | hmem2
      · exact hxy he.symm
      · exact hy hmem2
    · simp only [insertKey, if_neg hc]
      refine List.nodup_cons.mpr ⟨?_, h⟩
      intro hmem
      rcases List.mem_cons.mp hmem with he | hmem2
      · exact hxy he
      · exact hxys hmem2

theorem insertKey_pairwise (x : String) (l : List String)
    (h : l.Pairwise (fun a b => compareKeys a b ≤ 0)) :
    (insertKey x l).Pairwise (fun a b => compareKeys a b ≤ 0) := by
  induction l with
  | nil => simp [insertKey]
  | cons y ys ih =>
    obtain ⟨hy, hys⟩ := List.pairwise_cons.mp h
    by_cases hc : compareKeys y x ≤ 0
    · simp only [insertKey, if_pos hc]
      refine List.pairwise_cons.mpr ⟨?_, ih hys⟩
      intro a ha
      rcases (insertKey_mem x ys a).mp ha with rfl | ha2
      · exact hc
      · exact hy a ha2
    · simp only [insertKey, if_neg hc]
      refine List.pairwise_cons.mpr ⟨?_, h⟩
      intro a ha
      rcases List.mem_cons.mp ha with rfl | ha2
      · exact compareKeys_total _ _ hc
      · exact compareKeys_trans x y a (compareKeys_total y x hc) (hy a ha2)

theorem sortFold_mem (l acc : List String) (a : String) :
    a ∈ l.foldl (fun acc2 x => insertKey x acc2) acc ↔ a ∈ acc ∨ a ∈ l := by
  induction l generalizing acc with
  | nil => simp
  | cons x xs ih =>
    rw [List.foldl_cons, ih, insertKey_mem, List.mem_cons]
    tauto

theorem sortFold_nodup (l acc : List String) (hacc : acc.Nodup) (hl : l.Nodup)
    (hdisj : ∀ a ∈ l, a ∉ acc) :
    (l.foldl (fun acc2 x => insertKey x acc2) acc).Nodup := by
  induction l generalizing acc with
  | nil => simpa using hacc
  | cons x xs ih =>
    obtain ⟨hxxs, hxs⟩ := List.nodup_cons.mp hl
    rw [List.foldl_cons]
    refine ih (insertKey x acc)
      (insertKey_nodup x acc hacc (hdisj x (List.mem_cons_self x xs))) hxs ?_
    intro a ha hmem
    rcases (insertKey_mem x acc a).mp hmem with rfl | h2
    · exact hxxs ha
    · exact hdisj a (List.mem_cons_of_mem x ha) h2

theorem sortFold_pairwise (l acc : List String)
    (hacc : acc.Pairwise (fun a b => compareKeys a b ≤ 0)) :
    (l.foldl (fun acc2 x => insertKey x acc2) acc).Pairwise
      (fun a b => compareKeys a b ≤ 0) := by
  induction l generalizing acc with
  | nil => simpa using hacc
  | cons x xs ih =>
    rw [List.foldl_cons]
    exact ih _ (insertKey_pairwise x acc hacc)

theorem sortKeys_mem (l : List String) (a : String) : a ∈ sortKeys l ↔ a ∈ l := by
  unfold sortKeys
  rw [sortFold_mem]
  simp

theorem sortKeys_nodup (l : List String) (h : l.Nodup) : (sortKeys l).Nodup :=
  sortFold_nodup l [] List.nodup_nil h (by simp)

theorem sortKeys_pairwise (l : List String) :
    (sortKeys l).Pairwise (fun a b => compareKeys a b ≤ 0) :=
  sortFold_pairwise l [] List.Pairwise.nil

theorem addKey_mem (acc : List String) (k a : String) :
    a ∈ addKey acc k ↔ a ∈ acc ∨ a = k := by
  unfold addKey
  by_cases h : k ∈ acc
  · rw [if_pos h]
    constructor
    · exact Or.inl
    · rintro (ha | rfl)
      · exact ha
      · exact h
  · rw [if_neg h]
    simp

theorem addKey_nodup (acc : List String) (k : String) (h : acc.Nodup) :
    (addKey acc k).Nodup := by
  unfold addKey
  by_cases hk : k ∈ acc
  · rw [if_pos hk]
    exact h
  · rw [if_neg hk]
    simp [List.nodup_append, h, hk]

theorem keysFold_mem (ks acc : List String) (a : String) :
    a ∈ ks.foldl addKey acc ↔ a ∈ acc ∨ a ∈ ks := by
  induction ks generalizing acc with
  | nil => simp
  | cons k ks2 ih =>
    rw [List.foldl_cons, ih, addKey_mem, List.mem_cons]
    tauto

theorem keysFold_nodup (ks acc : List String) (h : acc.Nodup) :
    (ks.foldl addKey acc).Nodup := by
  induction ks generalizing acc with
  | nil => simpa using h
  | cons k ks2 ih =>
    rw [List.foldl_cons]
    exact ih _ (addKey_nodup acc k h)

theorem allKeysFold_mem (data : List Record) (acc : List String) (a : String) :
    a ∈ data.foldl (fun acc2 item => (item.map Prod.fst).foldl addKey acc2) acc
      ↔ a ∈ acc ∨ a ∈ unionKeys data := by
  induction data generalizing acc with
  | nil => simp [unionKeys]
  | cons r rs ih =>
    have hu : unionKeys (r :: rs) = r.map Prod.fst ++ unionKeys rs := rfl
    rw [List.foldl_cons, ih, keysFold_mem, hu, List.mem_append]
    tauto

theorem allKeysFold_nodup (data : List Record) (acc : List String) (h : acc.Nodup) :
    (data.foldl (fun acc2 item => (item.map Prod.fst).foldl addKey acc2) acc).Nodup := by
  induction data generalizing acc with
  | nil => simpa using h
  | cons r rs ih =>
    rw [List.foldl_cons]
    exact ih _ (keysFold_nodup _ _ h)

theorem allKeysFirstSeen_mem (data : List Record) (a : String) :
    a ∈ allKeysFirstSeen data ↔ a ∈ unionKeys data := by
  unfold allKeysFirstSeen
  rw [allKeysFold_mem]
  simp

theorem allKeysFirstSeen_nodup (data : List Record) : (allKeysFirstSeen data).Nodup :=
  allKeysFold_nodup data [] List.nodup_nil

theorem map_createColumnConfig_id (data : List Record) (ks : List String) :
    (ks.map (fun key => createColumnConfig key data)).map (fun c => c.id) = ks := by
  induction ks with
  | nil => rfl
  | cons k ks2 ih =>
    simp only [List.map_cons]
    rw [ih]
    rfl

theorem generateDynamicColumns_ids (data : List Record) (h : data ≠ []) :
    (generateDynamicColumns data).map (fun c => c.id)
      = sortKeys (allKeysFirstSeen data) := by
  have hne : data.isEmpty = false := by
    cases data with
    | nil => exact absurd rfl h
    | cons r rs => rfl
  unfold generateDynamicColumns
  rw [hne, if_neg (by simp)]
  exact map_createColumnConfig_id data (sortKeys (allKeysFirstSeen data))

/-! ## Claim theorems -/

/-- C1: the claim says a string cell containing a comma is exported as the
actual value wrapped in double quotes.  The code's template literal has no
substitution marker, so the export emits the literal unsubstituted
placeholder text instead of the cell value: the claim fails on the code,
and the spec itself calls this a defect, so the code is at fault. -/
theorem exportToCSV_emits_placeholder :
    exportToCSV
        [{ id := "name", name := "Name", sortable := true, width := "150px",
           «omit» := false, renderer := Renderer.plain }]
        [[("name", JSValue.vStr "a,b")]]
      = "Name\n\"\x7bvalue\x7d\""
    ∧ exportToCSV
        [{ id := "name", name := "Name", sortable := true, width := "150px",
           «omit» := false, renderer := Renderer.plain }]
        [[("name", JSValue.vStr "a,b")]]
      ≠ "Name\n\"a,b\"" := by
  constructor
  · rfl
  · decide

/-- C2: the claim says the filter pass never throws because every value is
defensively converted to text.  The code calls `value.toString()` with no
guard, so a record holding `null` makes the whole filter pass throw
(modelled as `none`); the spec names the defensive conversion as the
required design, so the code is at fault. -/
theorem filteredData_throws_on_null :
    filteredData [[("x", JSValue.vNull)]] "a" = none := by
  rfl

/-- C3 counterexample: the claim says a `number` column whose field name
contains a currency keyword (such as `salary`) renders 75000 as `$75,000`.
The code's number renderer applies `toLocaleString` to every numeric value
with no field-name heuristics, so the cell shows `75,000` without any
currency symbol. -/
theorem salary_renders_without_currency :
    (createColumnConfig "salary" [[("salary", JSValue.vNum 75000)]]).renderer
      = Renderer.number
    ∧ numberCellText (JSValue.vNum 75000) = "75,000"
    ∧ ("75,000" : String) ≠ "$75,000" := by
  refine ⟨rfl, rfl, ?_⟩
  decide

/-- C3 amended: every `number`-typed column installs the same renderer
regardless of field name, and that renderer formats a numeric value with
locale grouping separators only (no currency symbol, no one-decimal-place
case); non-numeric values are echoed as plain JSX text. -/
theorem number_renderer_locale_grouping (fieldName : String) (data : List Record)
    (n : Int)
    (h : analyzeFieldType fieldName data = FieldType.number) :
    (createColumnConfig fieldName data).renderer = Renderer.number
    ∧ numberCellText (JSValue.vNum n) = toLocaleString n
    ∧ numberCellText (JSValue.vStr "x") = jsxText (JSValue.vStr "x") := by
  refine ⟨?_, rfl, rfl⟩
  simp [createColumnConfig, h, getFieldConfig]

/-- C3 amended, witness at a concrete salary column. -/
theorem number_renderer_locale_grouping_witness :
    (createColumnConfig "salary" [[("salary", JSValue.vNum 50000)]]).renderer
      = Renderer.number
    ∧ numberCellText (JSValue.vNum 50000) = toLocaleString 50000
    ∧ numberCellText (JSValue.vStr "x") = jsxText (JSValue.vStr "x") :=
  number_renderer_locale_grouping "salary" [[("salary", JSValue.vNum 50000)]]
    50000 (by decide)

/-- C4 counterexample: the claim says column identifiers come out in
first-seen order.  For a single record whose keys appear in the order
`b`, `a`, first-seen order is `[b, a]`, but the code sorts with its
preference-then-alphabetical comparator and produces `[a, b]`. -/
theorem columns_not_first_seen_order :
    (generateDynamicColumns [[("b", JSValue.vNum 1), ("a", JSValue.vNum 2)]]).map
        (fun c => c.id) = ["a", "b"]
    ∧ allKeysFirstSeen [[("b", JSValue.vNum 1), ("a", JSValue.vNum 2)]] = ["b", "a"]
    ∧ (["a", "b"] : List String) ≠ ["b", "a"] := by
  refine ⟨rfl, rfl, ?_⟩
  decide

/-- C5 counterexample: the claim says a field whose first sample is a number
infers type `number` for every field name.  A field literally named `id`
with a numeric sample infers the dedicated `id` type instead, because the
field-name check precedes the `typeof` checks. -/
theorem id_field_number_sample_not_number :
    analyzeFieldType "id" [[("id", JSValue.vNum 7)]] = FieldType.id
    ∧ FieldType.id ≠ FieldType.number := by
  refine ⟨rfl, ?_⟩
  decide

/-- C5 amended: the inferred type is decided by the first non-null,
non-undefined sample value in record order (so the cap of five samples is
irrelevant) exactly as the claim states — except that a field literally
named `id` with at least one such sample infers the dedicated `id` type. -/
theorem analyzeFieldType_first_sample_decides (fieldName : String) (data : List Record) :
    analyzeFieldType fieldName data =
      match firstSample data fieldName with
      | none => FieldType.text
      | some v =>
        if fieldName = "id" then FieldType.id
        else
          match v with
          | JSValue.vNum _ => FieldType.number
          | JSValue.vBool _ => FieldType.boolean
          | JSValue.vStr s => if isDateString s then FieldType.date else FieldType.text
          | _ => FieldType.text := by
  rw [firstSample_eq_head]
  cases hs : sampleValues data fieldName with
  | nil => simp [analyzeFieldType, hs]
  | cons v rest => simp [analyzeFieldType, hs]

/-- C7: filtering with the empty filter text returns the record array
unchanged (the code short-circuits on the falsy empty string). -/
theorem filteredData_empty_identity (data : List Record) :
    filteredData data "" = some data := by
  simp [filteredData]

/-- C8 counterexample: the claim says every column identifier appearing in
the new data that is not yet visible is added.  With data whose second
record introduces the key `b`, the effect recomputes defaults from the
first record only, finds nothing new, and never adds `b`, even though `b`
does receive a column descriptor. -/
theorem later_record_key_not_added :
    "b" ∈ (generateDynamicColumns [[("a", JSValue.vNum 1), ("c", JSValue.vNum 3)],
        [("b", JSValue.vNum 2)]]).map (fun c => c.id)
    ∧ updateVisibleColumns [[("a", JSValue.vNum 1), ("c", JSValue.vNum 3)],
        [("b", JSValue.vNum 2)]] ["a", "c"] = ["a", "c"]
    ∧ "b" ∉ (["a", "c"] : List String) := by
  refine ⟨?_, rfl, ?_⟩ <;> decide

/-- C8 amended: on a dataset change exactly the members of the recomputed
first-record defaults (the first at most 8 non-`id` keys of the first
record) that are missing from the visible set are appended, in default
order; keys appearing only in later records are never added, and existing
entries are kept in place. -/
theorem updateVisibleColumns_appends_first_record_defaults
    (data : List Record) (prev : List String) :
    updateVisibleColumns data prev =
      prev ++ (generateDefaultVisibleColumns data).filter (fun col => decide (col ∉ prev)) := by
  unfold updateVisibleColumns
  by_cases h1 : 0 < (generateDefaultVisibleColumns data).length
      ∧ generateDefaultVisibleColumns data ≠ prev
  · rw [if_pos h1]
    by_cases h2 : 0 <
        ((generateDefaultVisibleColumns data).filter (fun col => decide (col ∉ prev))).length
    · rw [if_pos h2]
    · rw [if_neg h2]
      have h3 : (generateDefaultVisibleColumns data).filter
          (fun col => decide (col ∉ prev)) = [] :=
        List.length_eq_zero.mp (Nat.eq_zero_of_not_pos h2)
      rw [h3, List.append_nil]
  · rw [if_neg h1]
    by_cases h0 : 0 < (generateDefaultVisibleColumns data).length
    · have heq : generateDefaultVisibleColumns data = prev := by
        by_contra hne
        exact h1 ⟨h0, hne⟩
      have h3 : (generateDefaultVisibleColumns data).filter
          (fun col => decide (col ∉ prev)) = [] := by
        rw [heq]
        refine List.filter_eq_nil_iff.mpr ?_
        intro a ha
        simp only [decide_eq_true_eq]
        exact fun hn => hn ha
      rw [h3, List.append_nil]
    · have h3 : generateDefaultVisibleColumns data = [] :=
        List.length_eq_zero.mp (Nat.eq_zero_of_not_pos h0)
      rw [h3]
      simp

/-- C10: a field literally named `id` gets the dedicated `id` type (and its
hidden-by-default flag) only when at least one non-null, non-undefined
sample exists; with zero samples the zero-sample check fires first and the
field is classified `text` and not hidden by default. -/
theorem id_type_requires_sample (data : List Record) :
    analyzeFieldType "id" data =
      (if sampleValues data "id" = [] then FieldType.text else FieldType.id)
    ∧ (createColumnConfig "id" data).«omit» =
      (if sampleValues data "id" = [] then false else true) := by
  cases hs : sampleValues data "id" with
  | nil => simp [analyzeFieldType, createColumnConfig, getFieldConfig, hs]
  | cons v rest => simp [analyzeFieldType, createColumnConfig, getFieldConfig, hs]

theorem handleColumnToggle_step (l : List String) (c : String)
    (h1 : l.Nodup) (h2 : l ≠ []) :
    (handleColumnToggle l c).Nodup ∧ handleColumnToggle l c ≠ [] := by
  unfold handleColumnToggle
  by_cases hc : c ∈ l
  · rw [if_pos hc]
    by_cases hlen : l.length = 1
    · rw [if_pos hlen]
      exact ⟨h1, h2⟩
    · rw [if_neg hlen]
      refine ⟨h1.filter _, ?_⟩
      intro hnil
      have hall : ∀ a ∈ l, a = c := by
        intro a ha
        have hfa := List.filter_eq_nil_iff.mp hnil a ha
        simpa [bne_iff_ne] using hfa
      obtain ⟨x, xs, rfl⟩ := List.exists_cons_of_ne_nil h2
      cases xs with
      | nil => exact hlen rfl
      | cons y ys =>
        have hxy : x ∉ y :: ys := (List.nodup_cons.mp h1).1
        apply hxy
        rw [hall x (by simp), hall y (by simp)]
        exact List.mem_cons_self _ _
  · rw [if_neg hc]
    refine ⟨?_, by simp⟩
    simp [List.nodup_append, h1, hc]

theorem handleColumnToggle_fold (ids : List String) (l : List String)
    (h1 : l.Nodup) (h2 : l ≠ []) :
    (ids.foldl handleColumnToggle l).Nodup ∧ ids.foldl handleColumnToggle l ≠ [] := by
  induction ids generalizing l with
  | nil => exact ⟨h1, h2⟩
  | cons c cs ih =>
    obtain ⟨n1, n2⟩ := handleColumnToggle_step l c h1 h2
    simpa [List.foldl_cons] using ih (handleColumnToggle l c) n1 n2

/-- C6: starting from any duplicate-free non-empty visible-column set, any
sequence of toggle calls keeps the set duplicate-free and of size at least 1
(so in particular after each call of the sequence); toggling the only
member is a no-op, and otherwise a toggle flips that column's membership. -/
theorem toggleColumn_preserves_nonempty (l ids : List String) (c : String)
    (h1 : l.Nodup) (h2 : l ≠ []) :
    1 ≤ (ids.foldl handleColumnToggle l).length
    ∧ (ids.foldl handleColumnToggle l).Nodup
    ∧ handleColumnToggle [c] c = [c]
    ∧ (c ∈ l → l ≠ [c] → c ∉ handleColumnToggle l c)
    ∧ (c ∉ l → c ∈ handleColumnToggle l c) := by
  obtain ⟨hn, hne⟩ := handleColumnToggle_fold ids l h1 h2
  refine ⟨?_, hn, ?_, ?_, ?_⟩
  · exact Nat.one_le_iff_ne_zero.mpr (fun h0 => hne (List.length_eq_zero.mp h0))
  · simp [handleColumnToggle]
  · intro hc hlone
    have hlen : l.length ≠ 1 := by
      intro hlen1
      obtain ⟨a, rfl⟩ := List.length_eq_one.mp hlen1
      have hca : c = a := by simpa using hc
      exact hlone (by rw [hca])
    simp [handleColumnToggle, hc, hlen, List.mem_filter]
  · intro hc
    simp [handleColumnToggle, hc]

/-- C6 witness at a concrete state and toggle sequence. -/
theorem toggleColumn_preserves_nonempty_witness :
    1 ≤ (List.foldl handleColumnToggle ["a", "b"] ["b", "c"]).length
    ∧ (List.foldl handleColumnToggle ["a", "b"] ["b", "c"]).Nodup
    ∧ handleColumnToggle ["b"] "b" = ["b"]
    ∧ ("b" ∈ (["a", "b"] : List String) → (["a", "b"] : List String) ≠ ["b"] →
        "b" ∉ handleColumnToggle ["a", "b"] "b")
    ∧ ("b" ∉ (["a", "b"] : List String) → "b" ∈ handleColumnToggle ["a", "b"] "b") :=
  toggleColumn_preserves_nonempty ["a", "b"] ["b", "c"] "b" (by decide) (by decide)

/-- C4 amended: for non-empty data the column identifier sequence is still
the duplicate-free union of all keys across all records, but its order is
given by the sort comparator — fields of the hard-coded preference list
first, by list position, then all remaining fields in ascending
lexicographic (localeCompare) order — not by first-seen order. -/
theorem generateDynamicColumns_ids_spec (data : List Record) (k : String)
    (h : data ≠ []) :
    ((generateDynamicColumns data).map (fun c => c.id)).Nodup
    ∧ ((generateDynamicColumns data).map (fun c => c.id)).Pairwise
        (fun a b => compareKeys a b ≤ 0)
    ∧ ((k ∈ (generateDynamicColumns data).map (fun c => c.id))
        ↔ k ∈ unionKeys data) := by
  rw [generateDynamicColumns_ids data h]
  refine ⟨sortKeys_nodup _ (allKeysFirstSeen_nodup data), sortKeys_pairwise _, ?_⟩
  rw [sortKeys_mem, allKeysFirstSeen_mem]

/-- C4 amended, witness at a concrete record whose key order disagrees with
the sorted output. -/
theorem generateDynamicColumns_ids_spec_witness :
    ((generateDynamicColumns [[("b", JSValue.vNum 1), ("a", JSValue.vNum 2)]]).map
        (fun c => c.id)).Nodup
    ∧ ((generateDynamicColumns [[("b", JSValue.vNum 1), ("a", JSValue.vNum 2)]]).map
        (fun c => c.id)).Pairwise (fun a b => compareKeys a b ≤ 0)
    ∧ (("a" ∈ (generateDynamicColumns [[("b", JSValue.vNum 1), ("a", JSValue.vNum 2)]]).map
        (fun c => c.id))
        ↔ "a" ∈ unionKeys [[("b", JSValue.vNum 1), ("a", JSValue.vNum 2)]]) :=
  generateDynamicColumns_ids_spec [[("b", JSValue.vNum 1), ("a", JSValue.vNum 2)]] "a"
    (by decide)

/-- C9: the default visible set is exactly the first at most 8 non-`id`
keys of the first record, in that record's own key order; a key appearing
only in a later record is excluded from it even though it receives a
column descriptor. -/
theorem default_visible_from_first_record_only (first : Record) (rest : List Record)
    (k : String) (h1 : k ∉ first.map Prod.fst) (h2 : k ∈ unionKeys rest) :
    generateDefaultVisibleColumns (first :: rest)
      = ((first.map Prod.fst).filter (fun field => field != "id")).take 8
    ∧ k ∉ generateDefaultVisibleColumns (first :: rest)
    ∧ k ∈ (generateDynamicColumns (first :: rest)).map (fun c => c.id) := by
  refine ⟨rfl, ?_, ?_⟩
  · intro hk
    apply h1
    unfold generateDefaultVisibleColumns at hk
    exact List.filter_subset' _ (List.take_subset 8 _ hk)
  · rw [generateDynamicColumns_ids _ (by simp), sortKeys_mem, allKeysFirstSeen_mem]
    have hu : unionKeys (first :: rest) = first.map Prod.fst ++ unionKeys rest := rfl
    rw [hu, List.mem_append]
    exact Or.inr h2

/-- C9 witness: the key `zz` appears only in the second record. -/
theorem default_visible_from_first_record_only_witness :
    generateDefaultVisibleColumns [[("a", JSValue.vNum 1)], [("zz", JSValue.vNum 2)]]
      = ((([("a", JSValue.vNum 1)] : Record).map Prod.fst).filter
          (fun field => field != "id")).take 8
    ∧ "zz" ∉ generateDefaultVisibleColumns
        [[("a", JSValue.vNum 1)], [("zz", JSValue.vNum 2)]]
    ∧ "zz" ∈ (generateDynamicColumns
        [[("a", JSValue.vNum 1)], [("zz", JSValue.vNum 2)]]).map (fun c => c.id) :=
  default_visible_from_first_record_only [("a", JSValue.vNum 1)] [[("zz", JSValue.vNum 2)]]
    "zz" (by decide) (by decide)

end SynceDT
